import Mathlib

/-!
Shallow embedding of the POS system core (src/src/app/components/posSystem.tsx).

Modelling conventions:
* JS numbers carrying money (`price`, `total`, KPI revenue/average) are
  modelled as exact rationals `ℚ`, following the spec's decimal-arithmetic
  reading; `quantity` (parseInt, positive) and `id` (Date.now milliseconds)
  are `ℕ`.
* A JS plain object used as a string-keyed map (`productSales`,
  `categorySales`) is modelled as an association list in insertion
  (creation) order; `Object.keys` enumeration is modelled separately by
  `jsKeys`, which per ECMA-262 lists array-index-like keys (canonical
  numeric strings below 2^32 - 1) first in ascending numeric order and
  the remaining string keys in creation order.
* `Date.now()` is an input to `recordSale` (the clock value at the call);
  sequences of mutations are modelled as explicit traces.
* The localStorage slot is modelled as `Option Json`; `JSON.stringify` /
  `JSON.parse` become an explicit encoder/decoder pair on a JSON tree type.
-/

/-- A sale record, field-for-field the `Sale` object literal built in
`handleSubmit` (id, date, productName, price, quantity, category, total). -/
structure Sale where
  id : ℕ
  date : String
  productName : String
  price : ℚ
  quantity : ℕ
  category : String
  total : ℚ
deriving DecidableEq, Repr

/-- The validated form input handed to `handleSubmit` (productName, category,
already-parsed price and quantity). -/
structure SaleInput where
  productName : String
  category : String
  price : ℚ
  quantity : ℕ
deriving DecidableEq, Repr

/-- Result record of `calculateKPIs`. -/
structure KPISummary where
  totalSales : ℕ
  totalRevenue : ℚ
  avgOrderValue : ℚ
  topProduct : String
  topCategory : String
deriving DecidableEq, Repr

/-- One element of the chart series built by `prepareChartData`. -/
structure ChartPoint where
  name : String
  sales : ℕ
deriving DecidableEq, Repr

/-- `m[k] = (m[k] || 0) + q` on a JS object modelled as an association list:
update the existing entry in place, or append a fresh key at the end
(creation order; enumeration order is applied later by `jsKeys`). -/
def bump : List (String × ℕ) → String → ℕ → List (String × ℕ)
  | [], k, q => [(k, q)]
  | p :: rest, k, q =>
    if p.1 = k then (p.1, p.2 + q) :: rest else p :: bump rest k q

/-- The `salesData.forEach(sale => m[f sale] = (m[f sale] || 0) + g sale)`
loop that builds `productSales` / `categorySales`. -/
def tally (f : Sale → String) (g : Sale → ℕ) (salesData : List Sale) :
    List (String × ℕ) :=
  salesData.foldl (fun m sale => bump m (f sale) (g sale)) []

/-- JS property read `m[k]`: `some v` when the key is present, `none`
(undefined) otherwise. -/
def lookupKV : List (String × ℕ) → String → Option ℕ
  | [], _ => none
  | p :: rest, k => if p.1 = k then some p.2 else lookupKV rest k

/-- JS `>` on two property reads: any `undefined` operand makes the
comparison false (NaN semantics). -/
def jsGt : Option ℕ → Option ℕ → Bool
  | some a, some b => decide (b < a)
  | _, _ => false

/-- Decimal digit accumulator for `parseNat?`. -/
def parseNatAux : List Char → ℕ → Option ℕ
  | [], acc => some acc
  | ch :: rest, acc =>
    if ch.isDigit then parseNatAux rest (acc * 10 + (ch.toNat - 48))
    else none

/-- Parse a nonempty all-digit string as a natural number (leading zeros
allowed here; canonicality is checked in `arrayIndex?`). -/
def parseNat? (s : String) : Option ℕ :=
  if s.data = [] then none else parseNatAux s.data 0

/-- ECMA-262 array-index test: `some n` when the string is the canonical
decimal numeral of `n` and `n < 2^32 - 1`, else `none`. Such keys are the
ones `Object.keys` enumerates first, in ascending numeric order. -/
def arrayIndex? (s : String) : Option ℕ :=
  match parseNat? s with
  | some n => if toString n = s ∧ n < 4294967295 then some n else none
  | none => none

/-- Ascending numeric order on array-index-like keys. -/
def idxLe (a b : String) : Prop :=
  (arrayIndex? a).getD 0 ≤ (arrayIndex? b).getD 0

instance idxLe.dec : DecidableRel idxLe := fun a b =>
  inferInstanceAs (Decidable ((arrayIndex? a).getD 0 ≤ (arrayIndex? b).getD 0))

/-- `Object.keys` enumeration order applied to a key list: array-index-like
keys first in ascending numeric order, then the remaining string keys in
their original (creation) order. -/
def jsOrder (ks : List String) : List String :=
  (ks.filter (fun k => (arrayIndex? k).isSome)).insertionSort idxLe
    ++ ks.filter (fun k => (arrayIndex? k).isNone)

/-- `Object.keys(m)` for an object modelled as a creation-ordered
association list. -/
def jsKeys (m : List (String × ℕ)) : List String :=
  jsOrder (m.map Prod.fst)

/-- `keys.reduce((a, b) => m[a] > m[b] ? a : b, init)`, reading values with
`val`. -/
def pickFold (val : String → Option ℕ) (a0 : String)
    (ks : List String) : String :=
  ks.foldl (fun a b => if jsGt (val a) (val b) then a else b) a0

/-- `Object.keys(m).reduce((a, b) => m[a] > m[b] ? a : b, 'None')` from
`calculateKPIs`, with `Object.keys` in its enumeration order. -/
def topKey (m : List (String × ℕ)) : String :=
  pickFold (lookupKV m) "None" (jsKeys m)

/-- `calculateKPIs` (posSystem.tsx lines 57-89). -/
def calculateKPIs (salesData : List Sale) : KPISummary :=
  if salesData.length = 0 then
    ⟨0, 0, 0, "None", "None"⟩
  else
    let totalSales := salesData.length
    let totalRevenue := salesData.foldl (fun sum sale => sum + sale.total) 0
    let avgOrderValue := totalRevenue / (totalSales : ℚ)
    let productSales := tally Sale.productName Sale.quantity salesData
    let topProduct := topKey productSales
    let categorySales := tally Sale.category Sale.quantity salesData
    let topCategory := topKey categorySales
    ⟨totalSales, totalRevenue, avgOrderValue, topProduct, topCategory⟩

/-- `prepareChartData` (posSystem.tsx lines 92-103):
`Object.keys(productSales).map(product => ({name: product,
sales: productSales[product]}))`; every enumerated key is present, so the
`getD 0` default is never taken. -/
def prepareChartData (salesData : List Sale) : List ChartPoint :=
  let productSales := tally Sale.productName Sale.quantity salesData
  (jsKeys productSales).map
    (fun product => ⟨product, (lookupKV productSales product).getD 0⟩)

/-- `deleteSale` (posSystem.tsx lines 52-54):
`salesData.filter(sale => sale.id !== id)`. -/
def deleteSale (salesData : List Sale) (i : ℕ) : List Sale :=
  salesData.filter (fun sale => sale.id ≠ i)

/-- `handleSubmit` (posSystem.tsx lines 29-49), with the clock value
(`Date.now()`) and the formatted date string as explicit inputs:
builds the new `Sale` with `total = price * quantity` and appends it
(`[...salesData, newSale]`). -/
def recordSale (now : ℕ) (date : String) (inp : SaleInput)
    (salesData : List Sale) : List Sale :=
  salesData ++
    [⟨now, date, inp.productName, inp.price, inp.quantity, inp.category,
      inp.price * (inp.quantity : ℚ)⟩]

/-- A sequence of `recordSale` operations starting from the empty
collection; each trace element carries the clock value, the date string and
the form input of one submission. -/
def applyTrace (ops : List (ℕ × String × SaleInput)) : List Sale :=
  ops.foldl (fun c o => recordSale o.1 o.2.1 o.2.2 c) []

/-- Summed `g` over the records of `c` whose `f` equals `k` (the intended
meaning of one `productSales`/`categorySales` entry). -/
def sumBy (f : Sale → String) (g : Sale → ℕ) (c : List Sale) (k : String) :
    ℕ :=
  ((c.filter (fun s => f s = k)).map g).sum

/-- The distinct elements of `l` in order of first encounter. This states
the spec's wording on key order; the code side is `tally`'s key list. -/
def firstSeen (l : List String) : List String :=
  l.foldl (fun ks k => if k ∈ ks then ks else ks ++ [k]) []

/-- JSON trees, the image of `JSON.stringify`/`JSON.parse` for the data the
system persists (numbers modelled as exact rationals). -/
inductive Json where
  | num : ℚ → Json
  | str : String → Json
  | arr : List Json → Json
  | obj : List (String × Json) → Json
deriving Repr

/-- Serialization of one sale record: the object with exactly the seven
fields of §3, in the source literal's order. -/
def encodeSale (s : Sale) : Json :=
  Json.obj
    [("id", Json.num (s.id : ℚ)),
     ("date", Json.str s.date),
     ("productName", Json.str s.productName),
     ("price", Json.num s.price),
     ("quantity", Json.num (s.quantity : ℚ)),
     ("category", Json.str s.category),
     ("total", Json.num s.total)]

/-- Read a JSON value as a rational number. -/
def asNum : Json → Option ℚ
  | Json.num q => some q
  | _ => none

/-- Read a JSON value as a string. -/
def asStr : Json → Option String
  | Json.str t => some t
  | _ => none

/-- Read a JSON value as a natural number (an integral, nonnegative JSON
number). -/
def asNat : Json → Option ℕ
  | Json.num q => if q.den = 1 ∧ 0 ≤ q.num then some q.num.toNat else none
  | _ => none

/-- Parse one sale record from a JSON object. -/
def decodeSale (j : Json) : Option Sale :=
  match j with
  | Json.obj fields => do
    let i ← (fields.lookup "id").bind asNat
    let d ← (fields.lookup "date").bind asStr
    let pn ← (fields.lookup "productName").bind asStr
    let pr ← (fields.lookup "price").bind asNum
    let q ← (fields.lookup "quantity").bind asNat
    let cat ← (fields.lookup "category").bind asStr
    let tot ← (fields.lookup "total").bind asNum
    pure ⟨i, d, pn, pr, q, cat, tot⟩
  | _ => none

/-- `JSON.stringify(salesData)`: the collection as a JSON array. -/
def encodeSales (c : List Sale) : Json :=
  Json.arr (c.map encodeSale)

/-- `JSON.parse` of a persisted snapshot back into a collection. -/
def decodeSales (j : Json) : Option (List Sale) :=
  match j with
  | Json.arr items => items.mapM decodeSale
  | _ => none

/-- `localStorage.setItem('salesData', JSON.stringify(salesData))`: the slot
afterwards holds the serialized collection. -/
def save (c : List Sale) : Option Json :=
  some (encodeSales c)

/-- The load effect (posSystem.tsx lines 16-21): an absent slot leaves the
initial empty collection; a present slot is parsed. -/
def load (slot : Option Json) : Option (List Sale) :=
  match slot with
  | none => some []
  | some j => decodeSales j

/-- Concrete collection with a quantity tie between two product names and
between two categories: "A"/"X" first encountered, "B"/"Y" second. -/
def exTie : List Sale :=
  [⟨1, "2026-01-01", "A", 1, 2, "X", 2⟩,
   ⟨2, "2026-01-01", "B", 1, 2, "Y", 2⟩]

/-- Concrete collection whose product names are array-index-like strings,
encountered in the order "10" then "2"; `Object.keys` enumerates them
numerically ascending as "2", "10". -/
def exNum : List Sale :=
  [⟨1, "2026-01-01", "10", 1, 2, "X", 2⟩,
   ⟨2, "2026-01-01", "2", 1, 3, "Y", 3⟩]

/-- The two submissions of the spec's §8 scenario. -/
def widgetInput3 : SaleInput := ⟨"Widget", "Tools", 999 / 100, 3⟩

/-- Second submission of the scenario (quantity 2). -/
def widgetInput2 : SaleInput := ⟨"Widget", "Tools", 999 / 100, 2⟩

/-- The §8 scenario collection: two Widget sales recorded in order. -/
def scenario : List Sale :=
  recordSale 2 "2026-10-12" widgetInput2
    (recordSale 1 "2026-10-12" widgetInput3 [])

/-! ### Helper lemmas -/

theorem foldl_add_total (c : List Sale) :
    ∀ q0 : ℚ, c.foldl (fun sum sale => sum + sale.total) q0
      = q0 + (c.map Sale.total).sum := by
  induction c with
  | nil => intro q0; simp
  | cons s c ih => intro q0; simp [ih, add_assoc]

/-! ### C8: empty-collection defaults -/

/-- C8: on the empty collection, `calculateKPIs` returns exactly
totalSales = 0, totalRevenue = 0, avgOrderValue = 0, topProduct = "None",
topCategory = "None". -/
theorem calculateKPIs_empty :
    calculateKPIs [] = ⟨0, 0, 0, "None", "None"⟩ := rfl

/-! ### C9: the concrete scenario -/

/-- C9: recording the two Widget sales of the spec scenario yields
totalSales = 2, totalRevenue = 49.95, avgOrderValue = 24.975,
topProduct = "Widget", topCategory = "Tools", and the chart series
[(Widget, 5)]. -/
theorem scenario_kpis :
    (calculateKPIs scenario).totalSales = 2 ∧
    (calculateKPIs scenario).totalRevenue = 4995 / 100 ∧
    (calculateKPIs scenario).avgOrderValue = 24975 / 1000 ∧
    (calculateKPIs scenario).topProduct = "Widget" ∧
    (calculateKPIs scenario).topCategory = "Tools" ∧
    prepareChartData scenario = [⟨"Widget", 5⟩] := by
  refine ⟨by decide, ?_, ?_, by decide, by decide, by decide⟩
  · simp [calculateKPIs, scenario, recordSale, widgetInput2, widgetInput3]
    norm_num
  · simp [calculateKPIs, scenario, recordSale, widgetInput2, widgetInput3]
    norm_num

/-! ### C5: recordSale appends a record with total = price * quantity -/

/-- C5: `recordSale` appends a single new record at the end, leaving the
prior records and their order unchanged, and the new record carries over
the inputs with `total = price * quantity` (so the stored `total` equals
the record's own `price * quantity` at creation). -/
theorem recordSale_spec (now : ℕ) (date : String) (inp : SaleInput)
    (c : List Sale) :
    ∃ r : Sale,
      recordSale now date inp c = c ++ [r] ∧
      r.id = now ∧ r.date = date ∧
      r.productName = inp.productName ∧ r.category = inp.category ∧
      r.price = inp.price ∧ r.quantity = inp.quantity ∧
      r.total = inp.price * (inp.quantity : ℚ) ∧
      r.total = r.price * (r.quantity : ℚ) :=
  ⟨_, rfl, rfl, rfl, rfl, rfl, rfl, rfl, rfl, rfl⟩

/-! ### C2: count, revenue, average -/

/-- C2: `calculateKPIs` returns totalSales = number of records,
totalRevenue = sum of the `total` fields, avgOrderValue =
totalRevenue / totalSales when there is at least one record, and both
totalRevenue and avgOrderValue are 0 on the empty collection. -/
theorem calculateKPIs_totals (c : List Sale) :
    (calculateKPIs c).totalSales = c.length ∧
    (calculateKPIs c).totalRevenue = (c.map Sale.total).sum ∧
    (0 < c.length →
      (calculateKPIs c).avgOrderValue =
        (calculateKPIs c).totalRevenue / (c.length : ℚ)) ∧
    (c.length = 0 →
      (calculateKPIs c).totalRevenue = 0 ∧
      (calculateKPIs c).avgOrderValue = 0) := by
  by_cases h : c.length = 0
  · have hc : c = [] := List.length_eq_zero.mp h
    subst hc
    simp [calculateKPIs]
  · refine ⟨?_, ?_, ?_, fun h0 => absurd h0 h⟩
    · simp [calculateKPIs, h]
    · simp [calculateKPIs, h, foldl_add_total]
    · intro _
      simp [calculateKPIs, h, foldl_add_total]

/-- Witness for C2 at the scenario collection. -/
theorem calculateKPIs_totals_witness :
    0 < scenario.length ∧
    (calculateKPIs scenario).avgOrderValue =
      (calculateKPIs scenario).totalRevenue / (scenario.length : ℚ) :=
  ⟨by decide, ((calculateKPIs_totals scenario).2.2.1 (by decide))⟩

/-! ### C4: deleteSale -/

/-- C4: `deleteSale` keeps the surviving records in their original relative
order (sublist), every surviving record has a different id, every record
with a different id survives, deleting an absent id is a no-op, and when
ids are unique and the id is present exactly one record is removed. -/
theorem deleteSale_spec (c : List Sale) (i : ℕ) :
    (deleteSale c i).Sublist c ∧
    (∀ s ∈ deleteSale c i, s.id ≠ i) ∧
    (∀ s ∈ c, s.id ≠ i → s ∈ deleteSale c i) ∧
    ((∀ s ∈ c, s.id ≠ i) → deleteSale c i = c) ∧
    ((c.map Sale.id).Nodup → ∀ s ∈ c, s.id = i →
      (deleteSale c i).length + 1 = c.length) := by
  refine ⟨List.filter_sublist c, ?_, ?_, ?_, ?_⟩
  · intro s hs
    have h := (List.mem_filter.mp hs).2
    simpa using h
  · intro s hs hne
    exact List.mem_filter.mpr ⟨hs, by simpa using hne⟩
  · intro h
    apply List.filter_eq_self.mpr
    intro a ha
    simpa using h a ha
  · induction c with
    | nil => intro _ s hs; exact absurd hs (List.not_mem_nil s)
    | cons a c ih =>
      intro hnd s hs hsid
      rw [List.map_cons, List.nodup_cons] at hnd
      rcases List.mem_cons.mp hs with h1 | h1
      · subst h1
        have hrest : ∀ x ∈ c, x.id ≠ i := by
          intro x hx hxid
          apply hnd.1
          have hm : x.id ∈ List.map Sale.id c :=
            List.mem_map_of_mem Sale.id hx
          rw [hxid, ← hsid] at hm
          exact hm
        have he : deleteSale (s :: c) i = deleteSale c i := by
          simp [deleteSale, List.filter_cons, hsid]
        rw [he]
        have he2 : deleteSale c i = c := by
          apply List.filter_eq_self.mpr
          intro x hx
          simpa using hrest x hx
        simp [he2]
      · have haid : a.id ≠ i := by
          intro hai
          apply hnd.1
          have hm : s.id ∈ List.map Sale.id c :=
            List.mem_map_of_mem Sale.id h1
          rw [hsid, ← hai] at hm
          exact hm
        have he : deleteSale (a :: c) i = a :: deleteSale c i := by
          simp [deleteSale, List.filter_cons, haid]
        rw [he]
        have := ih hnd.2 s h1 hsid
        simp only [List.length_cons]
        omega

/-- Witness for C4 on a two-record collection with id 1 deleted. -/
theorem deleteSale_spec_witness :
    (∀ s ∈ exTie, s.id ≠ 1 → s ∈ deleteSale exTie 1) ∧
    ((exTie.map Sale.id).Nodup → ∀ s ∈ exTie, s.id = 1 →
      (deleteSale exTie 1).length + 1 = exTie.length) :=
  ⟨(deleteSale_spec exTie 1).2.2.1, (deleteSale_spec exTie 1).2.2.2.2⟩

/-! ### C6: id uniqueness under recordSale -/

theorem applyTrace_map_id_aux (ops : List (ℕ × String × SaleInput)) :
    ∀ c : List Sale,
      (ops.foldl (fun c o => recordSale o.1 o.2.1 o.2.2 c) c).map Sale.id
        = c.map Sale.id ++ ops.map Prod.fst := by
  induction ops with
  | nil => intro c; simp
  | cons o ops ih =>
    intro c
    rw [List.foldl_cons, ih]
    simp [recordSale]

/-- The ids of a trace-built collection are exactly the clock values of the
submissions, in order. -/
theorem applyTrace_map_id (ops : List (ℕ × String × SaleInput)) :
    (applyTrace ops).map Sale.id = ops.map Prod.fst := by
  simpa using applyTrace_map_id_aux ops []

/-- C6 counterexample: two submissions within the same millisecond
(`Date.now()` returns 5 twice) produce two records with the same id, so a
reachable collection violates id uniqueness. -/
theorem applyTrace_dup_id_cex :
    ((applyTrace [(5, "2026-10-12", widgetInput3),
                  (5, "2026-10-12", widgetInput2)]).map Sale.id = [5, 5]) ∧
    ¬ ((applyTrace [(5, "2026-10-12", widgetInput3),
                    (5, "2026-10-12", widgetInput2)]).map Sale.id).Nodup := by
  constructor
  · decide
  · intro h
    rw [applyTrace_map_id] at h
    simp at h

/-- C6 amended: when the clock values at successive `recordSale` calls are
strictly increasing, the ids of the resulting collection are strictly
increasing in insertion order, hence pairwise distinct. -/
theorem applyTrace_ids_strictMono (ops : List (ℕ × String × SaleInput))
    (h : (ops.map Prod.fst).Pairwise (· < ·)) :
    ((applyTrace ops).map Sale.id).Pairwise (· < ·) ∧
    ((applyTrace ops).map Sale.id).Nodup := by
  rw [applyTrace_map_id]
  exact ⟨h, h.imp Nat.ne_of_lt⟩

/-- Witness for the amended C6 on a two-submission trace with ticking
clock. -/
theorem applyTrace_ids_strictMono_witness :
    (([(1, "2026-10-12", widgetInput3),
       (2, "2026-10-12", widgetInput2)].map
        (Prod.fst (β := String × SaleInput))).Pairwise (· < ·)) ∧
    ((applyTrace [(1, "2026-10-12", widgetInput3),
                  (2, "2026-10-12", widgetInput2)]).map Sale.id).Nodup :=
  ⟨by decide,
   (applyTrace_ids_strictMono
     [(1, "2026-10-12", widgetInput3), (2, "2026-10-12", widgetInput2)]
     (by decide)).2⟩

/-! ### C7: persistence round trip -/

theorem asNat_natCast (n : ℕ) : asNat (Json.num (n : ℚ)) = some n := by
  simp [asNat, Rat.den_natCast, Rat.num_natCast, Int.toNat_natCast]

theorem decodeSale_encodeSale (s : Sale) :
    decodeSale (encodeSale s) = some s := by
  simp [decodeSale, encodeSale, List.lookup, asNat_natCast, asStr, asNum]

theorem mapM_loop_decode (c : List Sale) :
    ∀ acc : List Sale,
      List.mapM.loop decodeSale (c.map encodeSale) acc
        = some (acc.reverse ++ c) := by
  induction c with
  | nil => intro acc; simp [List.mapM.loop]
  | cons s c ih =>
    intro acc
    simp [List.mapM.loop, decodeSale_encodeSale, ih]

theorem mapM_decodeSale_encodeSale (c : List Sale) :
    (c.map encodeSale).mapM decodeSale = some c := by
  simpa using mapM_loop_decode c []

/-- C7: saving any collection and loading it back returns the same
collection, field for field, in the same order. -/
theorem load_save_roundtrip (c : List Sale) : load (save c) = some c := by
  show decodeSales (encodeSales c) = some c
  simpa [decodeSales, encodeSales] using mapM_loop_decode c []

/-! ### Association-list lemmas for tally and topKey -/

theorem bump_fst (m : List (String × ℕ)) (k : String) (q : ℕ) :
    (bump m k q).map Prod.fst =
      if k ∈ m.map Prod.fst then m.map Prod.fst
      else m.map Prod.fst ++ [k] := by
  induction m with
  | nil => simp [bump]
  | cons p m ih =>
    by_cases h : p.1 = k
    · simp [bump, h]
    · have hne : ¬ k = p.1 := fun he => h he.symm
      simp only [bump, if_neg h, List.map_cons, ih]
      by_cases hm : k ∈ m.map Prod.fst
      · simp [hm, List.mem_cons, hne]
      · simp [hm, List.mem_cons, hne]

theorem bump_lookup_self (m : List (String × ℕ)) (k : String) (q : ℕ) :
    lookupKV (bump m k q) k = some ((lookupKV m k).getD 0 + q) := by
  induction m with
  | nil => simp [bump, lookupKV]
  | cons p m ih =>
    by_cases h : p.1 = k
    · simp [bump, h, lookupKV]
    · simp [bump, h, lookupKV, ih]

theorem bump_lookup_ne (m : List (String × ℕ)) (k k' : String) (q : ℕ)
    (h : k' ≠ k) :
    lookupKV (bump m k q) k' = lookupKV m k' := by
  induction m with
  | nil => simp [bump, lookupKV, if_neg (Ne.symm h)]
  | cons p m ih =>
    by_cases hp : p.1 = k
    · have hkk : ¬ k = k' := fun he => h he.symm
      simp [bump, hp, lookupKV, hkk]
    · simp [bump, hp, lookupKV, ih]

theorem sumBy_cons (f : Sale → String) (g : Sale → ℕ) (s : Sale)
    (c : List Sale) (k : String) :
    sumBy f g (s :: c) k =
      if f s = k then g s + sumBy f g c k else sumBy f g c k := by
  by_cases h : f s = k <;> simp [sumBy, List.filter_cons, h]

theorem sumBy_eq_zero (f : Sale → String) (g : Sale → ℕ) (c : List Sale)
    (k : String) (h : k ∉ c.map f) : sumBy f g c k = 0 := by
  have he : c.filter (fun s => f s = k) = [] := by
    rw [List.filter_eq_nil_iff]
    intro x hx
    simp only [decide_eq_true_eq]
    intro hfx
    exact h (hfx ▸ List.mem_map_of_mem f hx)
  simp [sumBy, he]

theorem tally_foldl_lookup (f : Sale → String) (g : Sale → ℕ)
    (c : List Sale) :
    ∀ (m0 : List (String × ℕ)) (k : String),
      lookupKV (c.foldl (fun m s => bump m (f s) (g s)) m0) k =
        if k ∈ c.map f
        then some ((lookupKV m0 k).getD 0 + sumBy f g c k)
        else lookupKV m0 k := by
  induction c with
  | nil => intro m0 k; simp [sumBy]
  | cons s c ih =>
    intro m0 k
    rw [List.foldl_cons, ih]
    by_cases hs : f s = k
    · by_cases hm : k ∈ c.map f
      · simp [hm, hs, bump_lookup_self, sumBy_cons, add_assoc]
      · simp [hm, hs, bump_lookup_self, sumBy_cons,
          sumBy_eq_zero f g c k hm]
    · have hne : k ≠ f s := fun he => hs he.symm
      simp [bump_lookup_ne m0 (f s) k (g s) hne, sumBy_cons, hs, hne]

theorem tally_lookup_mem (f : Sale → String) (g : Sale → ℕ) (c : List Sale)
    (k : String) (h : k ∈ c.map f) :
    lookupKV (tally f g c) k = some (sumBy f g c k) := by
  have ha := tally_foldl_lookup f g c [] k
  simpa [tally, h, lookupKV] using ha

theorem tally_lookup_not_mem (f : Sale → String) (g : Sale → ℕ)
    (c : List Sale) (k : String) (h : k ∉ c.map f) :
    lookupKV (tally f g c) k = none := by
  have ha := tally_foldl_lookup f g c [] k
  simpa [tally, h, lookupKV] using ha

theorem tally_foldl_fst (f : Sale → String) (g : Sale → ℕ) (c : List Sale) :
    ∀ m0 : List (String × ℕ),
      ((c.foldl (fun m s => bump m (f s) (g s)) m0).map Prod.fst)
        = (c.map f).foldl (fun ks k => if k ∈ ks then ks else ks ++ [k])
            (m0.map Prod.fst) := by
  induction c with
  | nil => intro m0; simp
  | cons s c ih =>
    intro m0
    rw [List.foldl_cons, ih, List.map_cons, List.foldl_cons, bump_fst]

theorem tally_fst (f : Sale → String) (g : Sale → ℕ) (c : List Sale) :
    (tally f g c).map Prod.fst = firstSeen (c.map f) := by
  simpa [tally, firstSeen] using tally_foldl_fst f g c []

theorem ins_foldl_mem (l : List String) :
    ∀ (ks0 : List String) (x : String),
      x ∈ l.foldl (fun ks k => if k ∈ ks then ks else ks ++ [k]) ks0 ↔
        x ∈ ks0 ∨ x ∈ l := by
  induction l with
  | nil => intro ks0 x; simp
  | cons k l ih =>
    intro ks0 x
    rw [List.foldl_cons, ih]
    by_cases hk : k ∈ ks0
    · simp only [if_pos hk, List.mem_cons]
      constructor
      · rintro (h | h)
        · exact Or.inl h
        · exact Or.inr (Or.inr h)
      · rintro (h | h | h)
        · exact Or.inl h
        · exact Or.inl (h ▸ hk)
        · exact Or.inr h
    · simp only [if_neg hk, List.mem_append, List.mem_cons,
        List.mem_singleton]
      tauto

theorem ins_foldl_nodup (l : List String) :
    ∀ ks0 : List String, ks0.Nodup →
      (l.foldl (fun ks k => if k ∈ ks then ks else ks ++ [k]) ks0).Nodup := by
  induction l with
  | nil => intro ks0 h; simpa
  | cons k l ih =>
    intro ks0 h
    rw [List.foldl_cons]
    by_cases hk : k ∈ ks0
    · simpa [hk] using ih ks0 h
    · rw [if_neg hk]
      refine ih _ ?_
      simp [List.nodup_append, h, hk]

theorem firstSeen_mem (l : List String) (x : String) :
    x ∈ firstSeen l ↔ x ∈ l := by
  simpa [firstSeen] using ins_foldl_mem l [] x

theorem firstSeen_nodup (l : List String) : (firstSeen l).Nodup :=
  ins_foldl_nodup l [] List.nodup_nil

theorem tally_fst_nodup (f : Sale → String) (g : Sale → ℕ)
    (c : List Sale) : ((tally f g c).map Prod.fst).Nodup := by
  rw [tally_fst]
  exact firstSeen_nodup (c.map f)

theorem lookupKV_mem (m : List (String × ℕ)) (k : String) (v : ℕ)
    (h : lookupKV m k = some v) : (k, v) ∈ m := by
  induction m with
  | nil => simp [lookupKV] at h
  | cons p m ih =>
    obtain ⟨a, b⟩ := p
    by_cases hp : a = k
    · subst hp
      simp [lookupKV] at h
      subst h
      exact List.mem_cons_self _ _
    · simp [lookupKV, hp] at h
      exact List.mem_cons_of_mem _ (ih h)

theorem lookupKV_nodup_mem (m : List (String × ℕ))
    (hnd : (m.map Prod.fst).Nodup) (p : String × ℕ) (hp : p ∈ m) :
    lookupKV m p.1 = some p.2 := by
  induction m with
  | nil => cases hp
  | cons q m ih =>
    rw [List.map_cons, List.nodup_cons] at hnd
    rcases List.mem_cons.mp hp with rfl | hp2
    · simp [lookupKV]
    · have hne : q.1 ≠ p.1 := by
        intro he
        exact hnd.1 (he ▸ List.mem_map_of_mem Prod.fst hp2)
      simp [lookupKV, hne, ih hnd.2 hp2]

/-! ### The reduce that picks the top key -/

theorem jsGt_true_elim (x : Option ℕ) (b : ℕ)
    (h : jsGt x (some b) = true) : ∃ w, x = some w ∧ b < w := by
  cases x with
  | none => simp [jsGt] at h
  | some w => exact ⟨w, rfl, by simpa [jsGt] using h⟩

theorem jsGt_false_mono (x : Option ℕ) (b b' : ℕ)
    (h : jsGt x (some b) = false) (hb : b ≤ b') :
    jsGt x (some b') = false := by
  cases x with
  | none => simp [jsGt]
  | some w =>
    simp only [jsGt, decide_eq_false_iff_not, not_lt] at h ⊢
    omega

theorem pickFold_cons (val : String → Option ℕ) (a0 : String)
    (k : String) (l : List String) :
    pickFold val a0 (k :: l) =
      pickFold val (if jsGt (val a0) (val k) then a0 else k) l := by
  rw [pickFold, List.foldl_cons, pickFold]

/-- Behaviour of the JS reduce over a key list whose values are all
defined: either the initial accumulator beats every key, or the result is
the latest key whose value weakly dominates all earlier keys and strictly
dominates all later ones. -/
theorem pickFold_spec (val : String → Option ℕ) (l : List String) :
    ∀ a0 : String, (∀ k ∈ l, (val k).isSome) →
      (pickFold val a0 l = a0 ∧
        ∀ k ∈ l, jsGt (val a0) (val k) = true) ∨
      (∃ l1 v l2,
        l = l1 ++ pickFold val a0 l :: l2 ∧
        val (pickFold val a0 l) = some v ∧
        (∀ k ∈ l1, ∀ w, val k = some w → w ≤ v) ∧
        (∀ k ∈ l2, ∀ w, val k = some w → w < v) ∧
        jsGt (val a0) (some v) = false) := by
  induction l with
  | nil =>
    intro a0 h
    exact Or.inl ⟨rfl, by simp⟩
  | cons k l ih =>
    intro a0 h
    obtain ⟨w, hp⟩ := Option.isSome_iff_exists.mp (h k (List.mem_cons_self _ _))
    have hl : ∀ q ∈ l, (val q).isSome :=
      fun q hq => h q (List.mem_cons_of_mem _ hq)
    by_cases hc : jsGt (val a0) (val k) = true
    · have e : pickFold val a0 (k :: l) = pickFold val a0 l := by
        rw [pickFold_cons, if_pos hc]
      rcases ih a0 hl with ⟨h1, h2⟩ | ⟨l1, v, l2, hdec, hv, hle, hlt, hfa⟩
      · refine Or.inl ⟨by rw [e, h1], ?_⟩
        intro q hq
        rcases List.mem_cons.mp hq with rfl | hq2
        · exact hc
        · exact h2 q hq2
      · obtain ⟨w0, ha0, hww0⟩ :=
          jsGt_true_elim (val a0) w (by rw [hp] at hc; exact hc)
        have hw0v : w0 ≤ v := by
          rw [ha0] at hfa
          simpa [jsGt] using hfa
        refine Or.inr ⟨k :: l1, v, l2, ?_, ?_, ?_, hlt, ?_⟩
        · rw [e, List.cons_append]
          exact congrArg (List.cons k) hdec
        · rw [e]; exact hv
        · intro q hq w1 hw1
          rcases List.mem_cons.mp hq with rfl | hq2
          · rw [hp] at hw1
            have hww1 : w = w1 := Option.some.inj hw1
            omega
          · exact hle q hq2 w1 hw1
        · rw [ha0]
          simp only [jsGt, decide_eq_false_iff_not, not_lt]
          exact hw0v
    · have hcf : jsGt (val a0) (val k) = false := by
        revert hc
        cases jsGt (val a0) (val k) <;> simp
      have e : pickFold val a0 (k :: l) = pickFold val k l := by
        rw [pickFold_cons, if_neg (by simp [hcf])]
      have hfalse : jsGt (val a0) (some w) = false := by
        rw [← hp]; exact hcf
      rcases ih k hl with ⟨h1, h2⟩ | ⟨l1, v, l2, hdec, hv, hle, hlt, hfa⟩
      · refine Or.inr ⟨[], w, l, ?_, ?_, by simp, ?_, ?_⟩
        · rw [e, h1, List.nil_append]
        · rw [e, h1]; exact hp
        · intro q hq w1 hw1
          have ht := h2 q hq
          rw [hp, hw1] at ht
          simpa [jsGt] using ht
        · exact hfalse
      · have hwv : w ≤ v := by
          rw [hp] at hfa
          simpa [jsGt] using hfa
        refine Or.inr ⟨k :: l1, v, l2, ?_, ?_, ?_, hlt, ?_⟩
        · rw [e, List.cons_append]
          exact congrArg (List.cons k) hdec
        · rw [e]; exact hv
        · intro q hq w1 hw1
          rcases List.mem_cons.mp hq with rfl | hq2
          · rw [hp] at hw1
            have hww1 : w = w1 := Option.some.inj hw1
            omega
          · exact hle q hq2 w1 hw1
        · exact jsGt_false_mono (val a0) w v hfalse hwv

theorem lookupKV_isSome (m : List (String × ℕ)) (k : String) :
    (lookupKV m k).isSome ↔ k ∈ m.map Prod.fst := by
  induction m with
  | nil => simp [lookupKV]
  | cons p m ih =>
    by_cases hp : p.1 = k
    · simp [lookupKV, hp]
    · have hk : ¬ k = p.1 := fun he => hp he.symm
      simp [lookupKV, hp, ih, hk]

theorem jsOrder_mem (ks : List String) (x : String) :
    x ∈ jsOrder ks ↔ x ∈ ks := by
  rw [jsOrder, List.mem_append, (List.perm_insertionSort idxLe _).mem_iff]
  constructor
  · rintro (h | h)
    · exact (List.mem_filter.mp h).1
    · exact (List.mem_filter.mp h).1
  · intro h
    by_cases hi : (arrayIndex? x).isSome = true
    · exact Or.inl (List.mem_filter.mpr ⟨h, hi⟩)
    · refine Or.inr (List.mem_filter.mpr ⟨h, ?_⟩)
      cases harr : arrayIndex? x with
      | none => rfl
      | some n => rw [harr] at hi; simp at hi

theorem jsOrder_nodup (ks : List String) (h : ks.Nodup) :
    (jsOrder ks).Nodup := by
  rw [jsOrder]
  apply List.Nodup.append
  · exact (List.perm_insertionSort idxLe _).nodup_iff.mpr (h.filter _)
  · exact h.filter _
  · intro x hx1 hx2
    have h1 :=
      (List.mem_filter.mp ((List.perm_insertionSort idxLe _).mem_iff.mp hx1)).2
    have h2 := (List.mem_filter.mp hx2).2
    cases harr : arrayIndex? x with
    | none => rw [harr] at h1; simp at h1
    | some n => rw [harr] at h2; simp at h2

theorem jsKeys_mem (m : List (String × ℕ)) (k : String) :
    k ∈ jsKeys m ↔ k ∈ m.map Prod.fst := by
  rw [jsKeys]
  exact jsOrder_mem (m.map Prod.fst) k

/-- On a nonempty map, `topKey` occurs in the `Object.keys` enumeration,
its value weakly dominates every key enumerated before it and strictly
dominates every key enumerated after it (the latest among the maximal
keys, in enumeration order). -/
theorem topKey_spec (m : List (String × ℕ)) (hne : m ≠ []) :
    ∃ l1 v l2,
      jsKeys m = l1 ++ topKey m :: l2 ∧
      lookupKV m (topKey m) = some v ∧
      (∀ k ∈ l1, ∀ w, lookupKV m k = some w → w ≤ v) ∧
      (∀ k ∈ l2, ∀ w, lookupKV m k = some w → w < v) := by
  have hval : ∀ k ∈ jsKeys m, (lookupKV m k).isSome :=
    fun k hk => (lookupKV_isSome m k).mpr ((jsKeys_mem m k).mp hk)
  rcases pickFold_spec (lookupKV m) (jsKeys m) "None" hval with
    ⟨_, h2⟩ | ⟨l1, v, l2, hdec, hv, hle, hlt, _⟩
  · exfalso
    obtain ⟨p, hpm⟩ : ∃ p, p ∈ m := by
      cases m with
      | nil => exact absurd rfl hne
      | cons p m => exact ⟨p, List.mem_cons_self _ _⟩
    have hk1 : p.1 ∈ jsKeys m :=
      (jsKeys_mem m p.1).mpr (List.mem_map_of_mem Prod.fst hpm)
    have ht := h2 p.1 hk1
    obtain ⟨w1, hw1⟩ := Option.isSome_iff_exists.mp (hval p.1 hk1)
    rw [hw1] at ht
    obtain ⟨w, hw, _⟩ := jsGt_true_elim (lookupKV m "None") w1 ht
    have hmem : ("None", w) ∈ m := lookupKV_mem m "None" w hw
    have hnk : "None" ∈ jsKeys m :=
      (jsKeys_mem m "None").mpr (List.mem_map_of_mem Prod.fst hmem)
    have ht2 := h2 "None" hnk
    rw [hw] at ht2
    simp [jsGt] at ht2
  · rw [topKey]
    exact ⟨l1, v, l2, hdec, hv, hle, hlt⟩

/-! ### C3: chart series -/

theorem prepareChartData_eq (c : List Sale) :
    prepareChartData c =
      (jsKeys (tally Sale.productName Sale.quantity c)).map
        (fun k =>
          ⟨k, (lookupKV (tally Sale.productName Sale.quantity c) k).getD 0⟩) :=
  rfl

/-- C3 counterexample: with array-index-like product names encountered as
"10" then "2", `Object.keys` enumerates them in ascending numeric order,
so the chart series is ["2", "10"], not the first-encounter order
["10", "2"] the claim requires. -/
theorem prepareChartData_order_cex :
    (prepareChartData exNum).map ChartPoint.name = ["2", "10"] ∧
    firstSeen (exNum.map Sale.productName) = ["10", "2"] ∧
    (prepareChartData exNum).map ChartPoint.name
      ≠ firstSeen (exNum.map Sale.productName) ∧
    prepareChartData exNum = [⟨"2", 3⟩, ⟨"10", 2⟩] :=
  ⟨by decide, by decide, by decide, by decide⟩

/-- C3 (amended): exactly one entry per distinct productName, each carrying
the summed quantity of its records; the entries appear in `Object.keys`
enumeration order, i.e. array-index-like names first in ascending numeric
order, then the remaining names in the order they were first
encountered. -/
theorem prepareChartData_amended (c : List Sale) :
    ((prepareChartData c).map ChartPoint.name)
      = jsOrder (firstSeen (c.map Sale.productName)) ∧
    ((prepareChartData c).map ChartPoint.name).Nodup ∧
    (∀ x, x ∈ (prepareChartData c).map ChartPoint.name ↔
      x ∈ c.map Sale.productName) ∧
    (∀ p ∈ prepareChartData c,
      p.sales = sumBy Sale.productName Sale.quantity c p.name) := by
  have hname : (prepareChartData c).map ChartPoint.name
      = jsKeys (tally Sale.productName Sale.quantity c) := by
    rw [prepareChartData_eq, List.map_map]
    exact List.map_id _
  refine ⟨?_, ?_, ?_, ?_⟩
  · rw [hname, jsKeys, tally_fst]
  · rw [hname, jsKeys]
    exact jsOrder_nodup _ (tally_fst_nodup Sale.productName Sale.quantity c)
  · intro x
    rw [hname, jsKeys_mem, tally_fst, firstSeen_mem]
  · intro p hp
    rw [prepareChartData_eq] at hp
    obtain ⟨k, hk, he⟩ := List.mem_map.mp hp
    subst he
    have hkc : k ∈ c.map Sale.productName := by
      rw [jsKeys_mem, tally_fst, firstSeen_mem] at hk
      exact hk
    simp [tally_lookup_mem Sale.productName Sale.quantity c k hkc]

/-- Witness for the amended C3 at the numeric-name collection and its
first chart entry. -/
theorem prepareChartData_amended_witness :
    ((prepareChartData exNum).map ChartPoint.name)
      = jsOrder (firstSeen (exNum.map Sale.productName)) ∧
    (⟨"2", 3⟩ : ChartPoint).sales
      = sumBy Sale.productName Sale.quantity exNum
          (⟨"2", 3⟩ : ChartPoint).name :=
  ⟨(prepareChartData_amended exNum).1,
   (prepareChartData_amended exNum).2.2.2 ⟨"2", 3⟩ (by decide)⟩

/-! ### C1: top product / top category -/

/-- The top key of a tally attains the maximum summed quantity over the
collection; in `Object.keys` enumeration order, keys before it sum to at
most its value and keys after it to strictly less. -/
theorem topKey_tally_spec (f : Sale → String) (g : Sale → ℕ)
    (c : List Sale) (h : c ≠ []) :
    ∃ l1 v l2,
      jsKeys (tally f g c) = l1 ++ topKey (tally f g c) :: l2 ∧
      v = sumBy f g c (topKey (tally f g c)) ∧
      (∀ k ∈ l1, sumBy f g c k ≤ v) ∧
      (∀ k ∈ l2, sumBy f g c k < v) ∧
      (∀ s ∈ c, sumBy f g c (f s) ≤ v) := by
  have hne : tally f g c ≠ [] := by
    intro he
    obtain ⟨s, hs⟩ : ∃ s, s ∈ c := by
      cases c with
      | nil => exact absurd rfl h
      | cons s c => exact ⟨s, List.mem_cons_self _ _⟩
    have hm : f s ∈ (tally f g c).map Prod.fst := by
      rw [tally_fst, firstSeen_mem]
      exact List.mem_map_of_mem f hs
    rw [he] at hm
    simp at hm
  obtain ⟨l1, v, l2, hdec, hv, hle, hlt⟩ := topKey_spec (tally f g c) hne
  have hkeymem : ∀ k, k ∈ jsKeys (tally f g c) → k ∈ c.map f := by
    intro k hk
    have h1 := (jsKeys_mem (tally f g c) k).mp hk
    rw [tally_fst, firstSeen_mem] at h1
    exact h1
  have htop : topKey (tally f g c) ∈ jsKeys (tally f g c) := by
    rw [hdec]
    simp
  have htopc : topKey (tally f g c) ∈ c.map f := hkeymem _ htop
  have hveq : v = sumBy f g c (topKey (tally f g c)) := by
    have hl := tally_lookup_mem f g c (topKey (tally f g c)) htopc
    rw [hv] at hl
    exact Option.some.inj hl
  refine ⟨l1, v, l2, hdec, hveq, ?_, ?_, ?_⟩
  · intro k hk
    have hkc : k ∈ c.map f :=
      hkeymem k (by rw [hdec]; exact List.mem_append_left _ hk)
    exact hle k hk (sumBy f g c k) (tally_lookup_mem f g c k hkc)
  · intro k hk
    have hkc : k ∈ c.map f := hkeymem k (by
      rw [hdec]
      exact List.mem_append_right _ (List.mem_cons_of_mem _ hk))
    exact hlt k hk (sumBy f g c k) (tally_lookup_mem f g c k hkc)
  · intro s hs
    have hks : f s ∈ c.map f := List.mem_map_of_mem f hs
    have hkj : f s ∈ jsKeys (tally f g c) := by
      rw [jsKeys_mem, tally_fst, firstSeen_mem]
      exact hks
    rw [hdec] at hkj
    rcases List.mem_append.mp hkj with h1 | h1
    · exact hle (f s) h1 (sumBy f g c (f s)) (tally_lookup_mem f g c (f s) hks)
    · rcases List.mem_cons.mp h1 with he | h2
      · rw [he, ← hveq]
      · exact le_of_lt
          (hlt (f s) h2 (sumBy f g c (f s)) (tally_lookup_mem f g c (f s) hks))

theorem calculateKPIs_top_fields (c : List Sale) (h : c ≠ []) :
    (calculateKPIs c).topProduct
      = topKey (tally Sale.productName Sale.quantity c) ∧
    (calculateKPIs c).topCategory
      = topKey (tally Sale.category Sale.quantity c) := by
  have hlen : ¬ c.length = 0 := by
    simpa [List.length_eq_zero] using h
  constructor <;> simp [calculateKPIs, hlen]

/-- C1 counterexample: with two product names (and two categories) tied on
summed quantity, the code returns the one enumerated LAST ("B"/"Y"), not
the first-encountered one ("A"/"X") that the claim predicts. -/
theorem calculateKPIs_top_cex :
    exTie.map Sale.productName = ["A", "B"] ∧
    exTie.map Sale.category = ["X", "Y"] ∧
    sumBy Sale.productName Sale.quantity exTie "A"
      = sumBy Sale.productName Sale.quantity exTie "B" ∧
    sumBy Sale.category Sale.quantity exTie "X"
      = sumBy Sale.category Sale.quantity exTie "Y" ∧
    (calculateKPIs exTie).topProduct = "B" ∧
    (calculateKPIs exTie).topCategory = "Y" :=
  ⟨by decide, by decide, by decide, by decide, by decide, by decide⟩

/-- C1 (amended): on a nonempty collection, topProduct (resp. topCategory)
attains the greatest summed quantity over all names (categories); when
several tie for the greatest, the reduce keeps the incumbent only on a
strictly greater value, so the key that `Object.keys` enumerates LAST
among the tied ones is returned (enumeration order: array-index-like
names ascending numerically, then the rest in first-encounter order): in
the enumerated key list, keys before the winner sum to at most its value
and keys after it to strictly less. -/
theorem calculateKPIs_top_correct (c : List Sale) (h : c ≠ []) :
    (∃ l1 v l2,
      jsKeys (tally Sale.productName Sale.quantity c)
        = l1 ++ (calculateKPIs c).topProduct :: l2 ∧
      v = sumBy Sale.productName Sale.quantity c
            (calculateKPIs c).topProduct ∧
      (∀ k ∈ l1, sumBy Sale.productName Sale.quantity c k ≤ v) ∧
      (∀ k ∈ l2, sumBy Sale.productName Sale.quantity c k < v) ∧
      (∀ s ∈ c, sumBy Sale.productName Sale.quantity c s.productName ≤ v)) ∧
    (∃ l1 v l2,
      jsKeys (tally Sale.category Sale.quantity c)
        = l1 ++ (calculateKPIs c).topCategory :: l2 ∧
      v = sumBy Sale.category Sale.quantity c
            (calculateKPIs c).topCategory ∧
      (∀ k ∈ l1, sumBy Sale.category Sale.quantity c k ≤ v) ∧
      (∀ k ∈ l2, sumBy Sale.category Sale.quantity c k < v) ∧
      (∀ s ∈ c, sumBy Sale.category Sale.quantity c s.category ≤ v)) := by
  obtain ⟨hp, hc2⟩ := calculateKPIs_top_fields c h
  rw [hp, hc2]
  exact ⟨topKey_tally_spec Sale.productName Sale.quantity c h,
         topKey_tally_spec Sale.category Sale.quantity c h⟩

/-- Witness for the amended C1 on the tied collection. -/
theorem calculateKPIs_top_correct_witness :
    exTie ≠ [] ∧
    (∃ l1 v l2,
      jsKeys (tally Sale.productName Sale.quantity exTie)
        = l1 ++ (calculateKPIs exTie).topProduct :: l2 ∧
      v = sumBy Sale.productName Sale.quantity exTie
            (calculateKPIs exTie).topProduct ∧
      (∀ k ∈ l1, sumBy Sale.productName Sale.quantity exTie k ≤ v) ∧
      (∀ k ∈ l2, sumBy Sale.productName Sale.quantity exTie k < v) ∧
      (∀ s ∈ exTie,
        sumBy Sale.productName Sale.quantity exTie s.productName ≤ v)) :=
  ⟨by decide, (calculateKPIs_top_correct exTie (by decide)).1⟩

/-! ### C10: the top fields name members of the collection -/

theorem topKey_tally_mem (f : Sale → String) (g : Sale → ℕ)
    (c : List Sale) (h : c ≠ []) : topKey (tally f g c) ∈ c.map f := by
  obtain ⟨l1, v, l2, hdec, _, _, _, _⟩ := topKey_tally_spec f g c h
  have htop : topKey (tally f g c) ∈ jsKeys (tally f g c) := by
    rw [hdec]
    simp
  rw [jsKeys_mem, tally_fst, firstSeen_mem] at htop
  exact htop

/-- C10: on a nonempty collection, topProduct is the productName of some
record of the collection and topCategory is the category of some record;
the "None" sentinel can only come back on the empty collection (or as a
genuine member name). -/
theorem calculateKPIs_top_mem (c : List Sale) (h : c ≠ []) :
    (∃ s ∈ c, (calculateKPIs c).topProduct = s.productName) ∧
    (∃ s ∈ c, (calculateKPIs c).topCategory = s.category) := by
  obtain ⟨hp, hcat⟩ := calculateKPIs_top_fields c h
  constructor
  · obtain ⟨s, hs, he⟩ := List.mem_map.mp
      (topKey_tally_mem Sale.productName Sale.quantity c h)
    exact ⟨s, hs, by rw [hp, he]⟩
  · obtain ⟨s, hs, he⟩ := List.mem_map.mp
      (topKey_tally_mem Sale.category Sale.quantity c h)
    exact ⟨s, hs, by rw [hcat, he]⟩

/-- Witness for C10 on the tied collection. -/
theorem calculateKPIs_top_mem_witness :
    exTie ≠ [] ∧
    (∃ s ∈ exTie, (calculateKPIs exTie).topProduct = s.productName) :=
  ⟨by decide, (calculateKPIs_top_mem exTie (by decide)).1⟩
